import Mathlib

/-!
Verification development for the outlook-contacts-exporter contact-extraction
engine.  The definitions below are a shallow embedding of the web-worker
implementation (`decodeXmlBytes`, `addContact`, `extractEmailsFromPreview`,
`extractContactsFromXmlText`, `escapeCSV`, `generateCSV`, `generateVCard`,
and the `self.onmessage` run orchestration).  JavaScript strings are modelled
as `String` / `List Char`, the registry `Map` as an insertion-ordered list of
contacts, and regular-expression scans as explicit backtracking scanners that
follow the JS regex semantics of the concrete patterns in the source.
-/

namespace OlmExport

/-- Role tag of a contact: the TS union type `'from' | 'to' | 'cc' | 'bcc'`.
`from` is a Lean keyword, hence the constructor name `from_`. -/
inductive Source where
  | from_ : Source
  | to : Source
  | cc : Source
  | bcc : Source
deriving DecidableEq, Repr

/-- String form of a role tag, as interpolated by `${c.source}` in the source. -/
def sourceStr : Source → String
  | .from_ => "from"
  | .to => "to"
  | .cc => "cc"
  | .bcc => "bcc"

/-- The `Contact` interface of the worker. -/
structure Contact where
  email : String
  name : String
  source : Source
  count : Nat
deriving DecidableEq, Repr

/-- A transient `(email, name, source)` triple produced by an extractor
(the element type of the arrays returned by `extractEmailsFromPreview`). -/
structure Candidate where
  email : String
  name : String
  source : Source
deriving DecidableEq, Repr

/-- The `ContactMap` registry.  The JS `Map<string, Contact>` iterates in
insertion order and holds at most one entry per email key; it is modelled as
an insertion-ordered list looked up by email. -/
abbrev ContactMap := List Contact

/-- Lookup of `contacts.get(email)`: the first (and only) entry whose email
field equals the key. -/
def lookupContact (m : ContactMap) (email : String) : Option Contact :=
  m.find? (fun c => c.email == email)

/-- The worker's `addContact`: if an entry for `email` exists, increment its
count and adopt `name` when the stored name is empty and `name` is non-empty;
otherwise append a fresh entry `{email, name, source, count := 1}`. -/
def addContact (m : ContactMap) (email name : String) (source : Source) : ContactMap :=
  match m with
  | [] => [⟨email, name, source, 1⟩]
  | c :: rest =>
    if c.email = email then
      { c with
        count := c.count + 1,
        name := if name ≠ "" ∧ c.name = "" then name else c.name } :: rest
    else
      c :: addContact rest email name source

/-- Fold a list of candidates into the registry with `addContact`. -/
def observeAll (cs : List Candidate) (m : ContactMap) : ContactMap :=
  cs.foldl (fun r c => addContact r c.email c.name c.source) m

/-- Message count stored under a key (0 when the key is absent). -/
def countOf (m : ContactMap) (email : String) : Nat :=
  ((lookupContact m email).map Contact.count).getD 0

/-- First non-empty string of a list, or `""` when all are empty. -/
def firstNonEmpty : List String → String
  | [] => ""
  | x :: t => if x = "" then firstNonEmpty t else x

/-- Stable insertion of a contact in front of the first entry whose count is
not larger; together with `sortContacts` this is the standard stable sort by
descending count, the behaviour of the worker's
`Array.prototype.sort((a, b) => b.count - a.count)` (JS sort is stable). -/
def insertByCount (c : Contact) : List Contact → List Contact
  | [] => [c]
  | d :: t => if d.count ≤ c.count then c :: d :: t else d :: insertByCount c t

/-- Stable sort by descending count. -/
def sortContacts (l : List Contact) : List Contact :=
  l.foldr insertByCount []

/-- JS `str.includes(c)` for a single-character needle. -/
def jsIncludes (s : String) (c : Char) : Bool :=
  s.data.contains c

/-- JS `str.endsWith(suffix)` on the character level. -/
def jsEndsWith (s suffix : String) : Bool :=
  suffix.data.isSuffixOf s.data

/-- JS `str.replace(/"/g, '""')`: double every double quote. -/
def replaceQuotes : List Char → List Char
  | [] => []
  | c :: t => if c = '"' then '"' :: '"' :: replaceQuotes t else c :: replaceQuotes t

/-- The worker's `escapeCSV`. -/
def escapeCSV (s : String) : String :=
  if s = "" then ""
  else if jsIncludes s ',' || jsIncludes s '"' || jsIncludes s '\n' then
    "\"" ++ String.mk (replaceQuotes s.data) ++ "\""
  else s

/-- JS `Array.prototype.join(sep)`. -/
def joinWith (sep : String) : List String → String
  | [] => ""
  | [x] => x
  | x :: y :: t => x ++ sep ++ joinWith sep (y :: t)

/-- One CSV data row, the worker's template
`${escapeCSV(c.email)},${escapeCSV(c.name)},${c.source},${c.count}`. -/
def csvRow (c : Contact) : String :=
  escapeCSV c.email ++ "," ++ escapeCSV c.name ++ "," ++ sourceStr c.source ++ "," ++
    toString c.count

/-- The worker's `generateCSV`. -/
def generateCSV (contacts : List Contact) : String :=
  joinWith "\n" ("Email,Name,Source,Message Count" :: contacts.map csvRow)

/-- JS `name.split(' ')` on the character level: split at every single space,
keeping empty pieces between consecutive spaces. -/
def splitOnSpace : List Char → List (List Char)
  | [] => [[]]
  | c :: t =>
    if c = ' ' then [] :: splitOnSpace t
    else
      match splitOnSpace t with
      | [] => [[c]]
      | h :: r => (c :: h) :: r

/-- JS `parts.join(sep)` on character lists. -/
def intercalateChars (sep : List Char) : List (List Char) → List Char
  | [] => []
  | [x] => x
  | x :: y :: t => x ++ sep ++ intercalateChars sep (y :: t)

/-- One vCard record: the body of the worker's `generateVCard` map callback.
`nameParts.pop()` removes and returns the last element, so `lastName` is the
last part and `firstName` rejoins the remaining parts with single spaces. -/
def vcardRecord (c : Contact) : String :=
  let nameParts : List (List Char) := if c.name ≠ "" then splitOnSpace c.name.data else []
  let lastName : List Char := if nameParts.length > 1 then nameParts.getLastD [] else []
  let poppedParts : List (List Char) := if nameParts.length > 1 then nameParts.dropLast
    else nameParts
  let firstName : List Char := intercalateChars [' '] poppedParts
  joinWith "\r\n"
    [ "BEGIN:VCARD",
      "VERSION:3.0",
      (if c.name ≠ "" then "FN:" ++ c.name else "FN:" ++ c.email),
      (if c.name ≠ "" then
        "N:" ++ String.mk lastName ++ ";" ++ String.mk firstName ++ ";;;"
      else "N:;;;;"),
      "EMAIL;TYPE=INTERNET:" ++ c.email,
      "NOTE:Source: " ++ sourceStr c.source ++ ", Messages: " ++ toString c.count,
      "END:VCARD" ]

/-- The worker's `generateVCard`. -/
def generateVCard (contacts : List Contact) : String :=
  joinWith "\r\n" (contacts.map vcardRecord)

/-- Name-splitting rule stated independently from the vCard formatter, for
comparison with it: split on the space character; with two or more parts the
last part is the family name and the preceding parts rejoined with single
spaces are the given name, otherwise the family name is empty and the whole
name is the given name. -/
def specSplitName (name : List Char) : List Char × List Char :=
  let parts := splitOnSpace name
  if 2 ≤ parts.length then (parts.getLastD [], intercalateChars [' '] parts.dropLast)
  else ([], name)

/-- Character class of the JS regex `.` without the `s` flag: any character
except a line terminator. -/
def isDotChar (c : Char) : Bool :=
  !(c == '\n' || c == '\r' || c == '\u2028' || c == '\u2029')

/-- Character class of the JS regex `\s` (also the set trimmed by
`String.prototype.trim`). -/
def isJsSpace (c : Char) : Bool :=
  c == ' ' || c == '\t' || c == '\n' || c == '\r' || c == '\x0b' || c == '\x0c' ||
  c == '\u00A0' || c == '\u1680' || ('\u2000' ≤ c && c ≤ '\u200A') ||
  c == '\u2028' || c == '\u2029' || c == '\u202F' || c == '\u205F' ||
  c == '\u3000' || c == '\uFEFF'

/-- Character class of the JS regex `\w` (used for `\b` boundaries). -/
def isWordChar (c : Char) : Bool :=
  ('a' ≤ c && c ≤ 'z') || ('A' ≤ c && c ≤ 'Z') || ('0' ≤ c && c ≤ '9') || c == '_'

/-- JS `str.trim()` on a character list. -/
def trimJs (l : List Char) : List Char :=
  ((l.dropWhile isJsSpace).reverse.dropWhile isJsSpace).reverse

/-- Lower-cased character list of a string literal (for case-insensitive
patterns). -/
def lc (s : String) : List Char :=
  s.data.map Char.toLower

/-- Case-insensitive literal match at the front of `t`: when the first
`lcPat.length` characters of `t` lower-case to `lcPat`, return the rest. -/
def stripCI (lcPat : List Char) (t : List Char) : Option (List Char) :=
  if (t.take lcPat.length).map Char.toLower = lcPat then some (t.drop lcPat.length)
  else none

/-- One left-to-right pass of JS `str.replace(pat, rep)` with a global literal
pattern: at each position, if `pat` starts here the occurrence is replaced and
scanning resumes after it, otherwise one character is emitted.  `fuel` bounds
the iterations; callers supply more than the input length, which a pass never
exceeds because every step consumes at least one character. -/
def replaceGo (pat rep : List Char) : Nat → List Char → List Char
  | 0, t => t
  | _ + 1, [] => []
  | fuel + 1, c :: t =>
    if pat.isPrefixOf (c :: t) then rep ++ replaceGo pat rep fuel ((c :: t).drop pat.length)
    else c :: replaceGo pat rep fuel t

/-- JS `str.replace(/pat/g, rep)` for a literal pattern. -/
def replaceL (pat rep t : List Char) : List Char :=
  replaceGo pat rep (t.length + 1) t

/-- The five chained entity replacements `&lt; &gt; &amp; &quot; &#39;`, in
the order the source applies them (`decodeXmlEntities`, also inlined at the
top of `extractEmailsFromPreview`). -/
def decodeXmlEntitiesL (t : List Char) : List Char :=
  replaceL "&#39;".data "'".data
    (replaceL "&quot;".data "\"".data
      (replaceL "&amp;".data "&".data
        (replaceL "&gt;".data ">".data
          (replaceL "&lt;".data "<".data t))))

/-- The worker's `decodeXmlEntities` on strings. -/
def decodeXmlEntities (s : String) : String :=
  String.mk (decodeXmlEntitiesL s.data)

/-- Subpattern `<([^>]+)>` of the header regex: a literal `<`, a non-empty run
of characters other than `>` (greedy, hence forced to stop at the first `>`),
and the closing `>`.  Returns the bracketed text and the rest. -/
def matchBracket : List Char → Option (List Char × List Char)
  | '<' :: u =>
    let e := u.takeWhile (fun c => c != '>')
    if e.isEmpty then none
    else
      match u.drop e.length with
      | '>' :: rest => some (e, rest)
      | _ => none
  | _ => none

/-- Length of the maximal `\s*` run at the front. -/
def wsCount : List Char → Nat
  | [] => 0
  | c :: t => if isJsSpace c then wsCount t + 1 else 0

/-- Subpattern `\s*<([^>]+)>` after the name group.  The greedy `\s*` tries
its maximal run first; shorter skips would leave a whitespace character where
the literal `<` is required, so only the maximal skip can succeed. -/
def tryAfterName (t : List Char) : Option (List Char × List Char) :=
  matchBracket (t.drop (wsCount t))

/-- Subpattern `(.+?)\s*<([^>]+)>`: the lazy `(.+?)` extends the name group
one `.`-character at a time, trying to complete the pattern after each
extension. -/
def tryName (acc : List Char) : List Char → Option (List Char × List Char × List Char)
  | [] => none
  | c :: t =>
    if isDotChar c then
      match tryAfterName t with
      | some (e, rest) => some (acc ++ [c], e, rest)
      | none => tryName (acc ++ [c]) t
    else none

/-- Subpattern `\s*(.+?)\s*<([^>]+)>`: the leading greedy `\s*` skips `i`
whitespace characters, backtracking from the maximal run down to zero. -/
def tryW1 (t : List Char) : Nat → Option (List Char × List Char × List Char)
  | 0 => tryName [] t
  | i + 1 =>
    match tryName [] (t.drop (i + 1)) with
    | some r => some r
    | none => tryW1 t i

/-- Match of `\s*(.+?)\s*<([^>]+)>` at the front of `t`. -/
def matchRest (t : List Char) : Option (List Char × List Char × List Char) :=
  tryW1 t (wsCount t)

/-- Alternation `(From|To|Cc):` at the front of `t`, case-insensitively; the
three branches are mutually exclusive.  Returns the keyword as matched
(group 1) and the rest. -/
def matchKeyword (t : List Char) : Option (List Char × List Char) :=
  match stripCI (lc "From:") t with
  | some u => some (t.take 4, u)
  | none =>
    match stripCI (lc "To:") t with
    | some u => some (t.take 2, u)
    | none =>
      match stripCI (lc "Cc:") t with
      | some u => some (t.take 2, u)
      | none => none

/-- Leftmost match of the header regex `(From|To|Cc):\s*(.+?)\s*<([^>]+)>`:
try each start position from the left.  Returns the keyword, name and email
groups and the remaining suffix after the match (the regex `lastIndex`). -/
def findMatch : List Char → Option (List Char × List Char × List Char × List Char)
  | [] => none
  | c :: t =>
    match matchKeyword (c :: t) with
    | some (kw, u) =>
      match matchRest u with
      | some (nm, em, rest) => some (kw, nm, em, rest)
      | none => findMatch t
    | none => findMatch t

/-- All non-overlapping matches of the header regex, scanning left to right
(the `while ((match = headerRegex.exec(decodedText)) !== null)` loop).  `fuel`
bounds the iterations; every match consumes at least one character, so callers
pass more than the input length. -/
def collectMatches : Nat → List Char → List (List Char × List Char × List Char)
  | 0, _ => []
  | fuel + 1, t =>
    match findMatch t with
    | none => []
    | some (kw, nm, em, rest) => (kw, nm, em) :: collectMatches fuel rest

/-- Per-match body of the `extractEmailsFromPreview` loop: lower-case the
keyword, trim the name and email groups, keep the match only when the email
contains `@`, map the keyword to its role, lower-case the email. -/
def processOne (kw nm em : List Char) : Option Candidate :=
  let headerType := String.mk (kw.map Char.toLower)
  let name := trimJs nm
  let email := trimJs em
  if email.contains '@' then
    if headerType = "from" then
      some ⟨String.mk (email.map Char.toLower), String.mk name, .from_⟩
    else if headerType = "to" then
      some ⟨String.mk (email.map Char.toLower), String.mk name, .to⟩
    else if headerType = "cc" then
      some ⟨String.mk (email.map Char.toLower), String.mk name, .cc⟩
    else none
  else none

/-- The `exec` loop of `extractEmailsFromPreview`, fused with the per-match
processing. -/
def extractLoop : Nat → List Char → List Candidate
  | 0, _ => []
  | fuel + 1, t =>
    match findMatch t with
    | none => []
    | some (kw, nm, em, rest) =>
      match processOne kw nm em with
      | some cand => cand :: extractLoop fuel rest
      | none => extractLoop fuel rest

/-- The worker's `extractEmailsFromPreview`: decode entities, then scan the
decoded text with the header regex. -/
def extractEmailsFromPreview (previewText : String) : List Candidate :=
  let decodedText := decodeXmlEntitiesL previewText.data
  extractLoop (decodedText.length + 1) decodedText

/-- End of an opening tag `<KEY\b[^>]*>` whose `<` has just been consumed:
`u` must start with `KEY` (case-insensitively), followed by a `\b` boundary
(a non-word character, possibly the `>` itself), then the greedy `[^>]*` runs
to the first `>`.  Returns the suffix after that `>`. -/
def openTagEnd (lcKey : List Char) (u : List Char) : Option (List Char) :=
  match stripCI lcKey u with
  | none => none
  | some v =>
    match v with
    | [] => none
    | d :: _ =>
      if isWordChar d then none
      else
        match v.drop ((v.takeWhile (fun c => c != '>')).length) with
        | '>' :: after => some after
        | _ => none

/-- Leftmost occurrence of the opening tag `<KEY\b[^>]*>`; returns the suffix
after the tag. -/
def findOpen (lcKey : List Char) : List Char → Option (List Char)
  | [] => none
  | c :: t =>
    match (if c = '<' then openTagEnd lcKey t else none) with
    | some after => some after
    | none => findOpen lcKey t

/-- Leftmost case-insensitive occurrence of the literal `pat`; returns the
text before it and the suffix after it (the lazy `([\s\S]*?)` body followed by
the literal closing tag). -/
def findCI (pat : List Char) : List Char → Option (List Char × List Char)
  | [] =>
    match stripCI pat [] with
    | some rest => some ([], rest)
    | none => none
  | c :: t =>
    match stripCI pat (c :: t) with
    | some rest => some ([], rest)
    | none =>
      match findCI pat t with
      | some (pre, rest) => some (c :: pre, rest)
      | none => none

/-- All non-overlapping matches of the container regex
`<KEY\b[^>]*>([\s\S]*?)</KEY>` (flags `gi`), returning the group-1 bodies in
order.  `fuel` bounds the iterations; every match consumes at least one
character, so callers pass more than the input length. -/
def scanContainers (lcKey : List Char) : Nat → List Char → List (List Char)
  | 0, _ => []
  | fuel + 1, t =>
    match findOpen lcKey t with
    | none => []
    | some afterOpen =>
      match findCI ('<' :: '/' :: (lcKey ++ ['>'])) afterOpen with
      | none => []
      | some (body, rest) => body :: scanContainers lcKey fuel rest

/-- Match of the address regex `<emailAddress\b[^>]*>` whose `<` has just
been consumed; returns the whole matched tag (match 0, `<` through `>`) and
the suffix after it. -/
def addrTagAt (u : List Char) : Option (List Char × List Char) :=
  match stripCI (lc "emailAddress") u with
  | none => none
  | some v =>
    match v with
    | [] => none
    | d :: _ =>
      if isWordChar d then none
      else
        match v.drop ((v.takeWhile (fun c => c != '>')).length) with
        | '>' :: after =>
          some ('<' :: (u.take (lc "emailAddress").length ++
            (v.takeWhile (fun c => c != '>') ++ ['>'])), after)
        | _ => none

/-- Leftmost match of `<emailAddress\b[^>]*>`. -/
def findAddrTag : List Char → Option (List Char × List Char)
  | [] => none
  | c :: t =>
    match (if c = '<' then addrTagAt t else none) with
    | some r => some r
    | none => findAddrTag t

/-- All non-overlapping matches of `<emailAddress\b[^>]*>/gi` inside a
container body. -/
def scanAddresses : Nat → List Char → List (List Char)
  | 0, _ => []
  | fuel + 1, t =>
    match findAddrTag t with
    | none => []
    | some (tag, rest) => tag :: scanAddresses fuel rest

/-- Match of the attribute regex `NAME=(["'])(.*?)\1` (flag `i`) at the front
of `t`: the attribute name, `=`, an opening quote, then the lazy `(.*?)` runs
to the first identical quote and may not cross a line terminator. -/
def attrAt (lcName : List Char) (t : List Char) : Option (List Char) :=
  match stripCI (lcName ++ ['=']) t with
  | none => none
  | some v =>
    match v with
    | [] => none
    | q :: rest =>
      if q == '"' || q == '\'' then
        let val := rest.takeWhile (fun c => c != q)
        if val.all isDotChar then
          match rest.drop val.length with
          | _ :: _ => some val
          | [] => none
        else none
      else none

/-- First match of the attribute regex anywhere in the tag
(`tag.match(/NAME=(["'])(.*?)\1/i)`), returning group 2. -/
def attrValue (lcName : List Char) : List Char → Option (List Char)
  | [] => none
  | c :: t =>
    match attrAt lcName (c :: t) with
    | some v => some v
    | none => attrValue lcName t

/-- JS `previewText.replace(/<[^>]+>/g, '')`: drop every maximal
`<`‑to‑`>` tag with a non-empty inside; a `<` with no matching pattern is
kept.  `fuel` bounds the iterations as elsewhere. -/
def stripTags : Nat → List Char → List Char
  | 0, t => t
  | _ + 1, [] => []
  | fuel + 1, c :: t =>
    if c = '<' then
      let w := t.takeWhile (fun x => x != '>')
      if w.isEmpty then c :: stripTags fuel t
      else
        match t.drop w.length with
        | '>' :: rest => stripTags fuel rest
        | _ => c :: stripTags fuel t
    else c :: stripTags fuel t

/-- Tag stripping with sufficient fuel. -/
def stripTagsL (t : List Char) : List Char :=
  stripTags (t.length + 1) t

/-- Per-address-tag body of the structured-field loop in
`extractContactsFromXmlText`: read the address attribute, require an `@` in
its raw value, decode entities, lower-case the email, read the optional name
attribute, and add the contact. -/
def processAddressTag (m : ContactMap) (tag : List Char) (source : Source) : ContactMap :=
  match attrValue (lc "OPFContactEmailAddressAddress") tag with
  | none => m
  | some rawEmail =>
    if rawEmail.contains '@' then
      let email := String.mk ((decodeXmlEntitiesL rawEmail).map Char.toLower)
      let name :=
        match attrValue (lc "OPFContactEmailAddressName") tag with
        | some rawName => String.mk (decodeXmlEntitiesL rawName)
        | none => ""
      addContact m email name source
    else m

/-- The `emailFields` table of `extractContactsFromXmlText` (container key,
role tag), in source order. -/
def emailFields : List (List Char × Source) :=
  [ (lc "OPFMessageCopyFromAddresses", .from_),
    (lc "OPFMessageCopyToAddresses", .to),
    (lc "OPFMessageCopyCCAddresses", .cc),
    (lc "OPFMessageCopyBCCAddresses", .bcc),
    (lc "OPFMessageCopyReplyToAddresses", .from_) ]

/-- The worker's `extractContactsFromXmlText`: for each field key enumerate
the containers and their nested address tags, then, when the preview flag is
set, enumerate `OPFMessageCopyPreview` bodies, strip tags, decode entities
once, and feed the text to `extractEmailsFromPreview` (which decodes again). -/
def extractContactsFromXmlText (xmlContent : String) (contacts : ContactMap)
    (extractFromPreview : Bool) : ContactMap :=
  let t := xmlContent.data
  let afterFields := emailFields.foldl (fun acc kv =>
    (scanContainers kv.1 (t.length + 1) t).foldl (fun acc2 containerBody =>
      (scanAddresses (containerBody.length + 1) containerBody).foldl (fun acc3 tag =>
        processAddressTag acc3 tag kv.2) acc2) acc) contacts
  if extractFromPreview then
    (scanContainers (lc "OPFMessageCopyPreview") (t.length + 1) t).foldl (fun acc body =>
      let previewText := decodeXmlEntitiesL (stripTagsL body)
      if previewText.isEmpty then acc
      else
        (extractEmailsFromPreview (String.mk previewText)).foldl (fun acc2 cand =>
          addContact acc2 (String.mk (cand.email.data.map Char.toLower))
            cand.name cand.source) acc) afterFields
  else afterFields

/-- Result of handing one record's bytes to a browser `TextDecoder`:
which encoding was selected and which bytes were passed to it.  The decoders
themselves are external collaborators (they never throw without the `fatal`
option, substituting U+FFFD on malformed input). -/
inductive Decoded where
  | utf16le (bytes : List Nat) : Decoded
  | utf16be (bytes : List Nat) : Decoded
  | utf8 (bytes : List Nat) : Decoded
deriving DecidableEq, Repr

/-- The worker's `decodeXmlBytes`: with at least two bytes, read them as a
big-endian 16-bit value; `0xFFFE` selects UTF-16LE and `0xFEFF` UTF-16BE for
the remaining bytes (`bytes.subarray(2)`), anything else selects UTF-8 for the
whole input. -/
def decodeXmlBytes : List Nat → Decoded
  | b0 :: b1 :: rest =>
    let bom := (b0 <<< 8) ||| b1
    if bom = 0xfffe then .utf16le rest
    else if bom = 0xfeff then .utf16be rest
    else .utf8 (b0 :: b1 :: rest)
  | short => .utf8 short

/-- One member of the opened zip archive (`zip.files`). -/
structure ZipEntry where
  name : String
  isDir : Bool
  bytes : List Nat
deriving DecidableEq, Repr

/-- The `result` payload of the worker's final `complete` message. -/
structure RunResult where
  totalContacts : Nat
  frequentContacts : Nat
  csvData : String
  csvFrequentData : String
  vcardData : String
  topContacts : List (String × String × Nat)
deriving DecidableEq, Repr

/-- Output section of the worker's `onmessage` handler: sort the registry by
descending count, generate both CSVs and the vCard text, and assemble the
counters and the top-10 preview list. -/
def buildResult (contacts : ContactMap) : RunResult :=
  let sortedContacts := sortContacts contacts
  { totalContacts := contacts.length,
    frequentContacts := (sortedContacts.filter (fun c => decide (3 ≤ c.count))).length,
    csvData := generateCSV sortedContacts,
    csvFrequentData := generateCSV (sortedContacts.filter (fun c => decide (3 ≤ c.count))),
    vcardData := generateVCard sortedContacts,
    topContacts := (sortedContacts.take 10).map (fun c => (c.email, c.name, c.count)) }

/-- The worker's `onmessage` run: keep the non-directory `.xml` members, fail
with the empty-archive error when none remain, otherwise decode and extract
every member into one shared registry and build the outputs.  `textOf` stands
for the external `TextDecoder` collaborator turning a decoded record into
text. -/
def processArchive (textOf : Decoded → String) (files : List ZipEntry)
    (extractFromPreview : Bool) : Except String RunResult :=
  let xmlFiles := files.filter (fun f => jsEndsWith f.name ".xml" && !f.isDir)
  if xmlFiles.length = 0 then
    .error "No XML files found in .olm archive"
  else
    let contacts := xmlFiles.foldl
      (fun m f => extractContactsFromXmlText (textOf (decodeXmlBytes f.bytes)) m
        extractFromPreview) []
    .ok (buildResult contacts)

/-! ### Aggregator lemmas -/

theorem email_of_lookup {m : ContactMap} {e : String} {c : Contact}
    (h : lookupContact m e = some c) : c.email = e := by
  have h2 := List.find?_some h
  exact eq_of_beq h2

theorem lookup_cons_pos {d : Contact} {rest : ContactMap} {e : String} (h : d.email = e) :
    lookupContact (d :: rest) e = some d := by
  simp [lookupContact, h]

theorem lookup_cons_neg {d : Contact} {rest : ContactMap} {e : String} (h : d.email ≠ e) :
    lookupContact (d :: rest) e = lookupContact rest e := by
  simp [lookupContact, h]

theorem addContact_of_lookup_none {m : ContactMap} {e : String} (n : String) (s : Source)
    (h : lookupContact m e = none) : addContact m e n s = m ++ [⟨e, n, s, 1⟩] := by
  induction m with
  | nil => rfl
  | cons d rest ih =>
    by_cases hd : d.email = e
    · rw [lookup_cons_pos hd] at h
      exact absurd h (by simp)
    · rw [lookup_cons_neg hd] at h
      simp only [addContact, if_neg hd, List.cons_append, List.cons.injEq, true_and]
      exact ih h

theorem lookup_addContact_some {m : ContactMap} {e : String} {c : Contact} (n : String)
    (s : Source) (h : lookupContact m e = some c) :
    lookupContact (addContact m e n s) e =
      some ⟨c.email, if n ≠ "" ∧ c.name = "" then n else c.name, c.source, c.count + 1⟩ := by
  induction m with
  | nil => simp [lookupContact] at h
  | cons d rest ih =>
    by_cases hd : d.email = e
    · rw [lookup_cons_pos hd] at h
      cases h
      simp only [addContact, if_pos hd]
      exact lookup_cons_pos hd
    · rw [lookup_cons_neg hd] at h
      simp only [addContact, if_neg hd]
      rw [lookup_cons_neg hd]
      exact ih h

theorem lookup_addContact_none {m : ContactMap} {e : String} (n : String) (s : Source)
    (h : lookupContact m e = none) :
    lookupContact (addContact m e n s) e = some ⟨e, n, s, 1⟩ := by
  rw [addContact_of_lookup_none n s h]
  induction m with
  | nil => simp [lookupContact]
  | cons d rest ih =>
    by_cases hd : d.email = e
    · rw [lookup_cons_pos hd] at h
      exact absurd h (by simp)
    · rw [lookup_cons_neg hd] at h
      rw [List.cons_append, lookup_cons_neg hd]
      exact ih h

theorem lookup_addContact_ne {m : ContactMap} {e e' : String} (n : String) (s : Source)
    (h : e' ≠ e) :
    lookupContact (addContact m e n s) e' = lookupContact m e' := by
  induction m with
  | nil =>
    have hb : (e == e') = false := by
      simp only [beq_eq_false_iff_ne, ne_eq]
      exact fun hh => h hh.symm
    simp [addContact, lookupContact, hb]
  | cons d rest ih =>
    by_cases hd : d.email = e
    · have hd' : d.email ≠ e' := fun hh => h (hh.symm.trans hd)
      have hb : (d.email == e') = false := by simpa using hd'
      simp [addContact, if_pos hd, lookupContact, hb]
    · by_cases hd' : d.email = e'
      · simp [addContact, if_neg hd, lookupContact, hd', h]
      · have hb : (d.email == e') = false := by simpa using hd'
        simp only [addContact, if_neg hd]
        rw [lookup_cons_neg hd', lookup_cons_neg hd']
        exact ih

theorem countOf_addContact (m : ContactMap) (e e' : String) (n : String) (s : Source) :
    countOf (addContact m e n s) e' = countOf m e' + (if e = e' then 1 else 0) := by
  by_cases he : e = e'
  · subst he
    cases h : lookupContact m e with
    | none => simp [countOf, lookup_addContact_none n s h, h]
    | some c => simp [countOf, lookup_addContact_some n s h, h]
  · rw [if_neg he]
    simp [countOf, lookup_addContact_ne n s (Ne.symm he)]

theorem isSome_lookup_addContact (m : ContactMap) (e e' : String) (n : String) (s : Source) :
    (lookupContact (addContact m e n s) e').isSome =
      ((e == e') || (lookupContact m e').isSome) := by
  by_cases he : e = e'
  · subst he
    cases h : lookupContact m e with
    | none => simp [lookup_addContact_none n s h]
    | some c => simp [lookup_addContact_some n s h]
  · rw [lookup_addContact_ne n s (fun hh => he hh.symm)]
    simp [he]

theorem countOf_observeAll (cs : List Candidate) (m : ContactMap) (e : String) :
    countOf (observeAll cs m) e = countOf m e + cs.countP (fun c => c.email == e) := by
  induction cs generalizing m with
  | nil => simp [observeAll, List.countP_nil]
  | cons c t ih =>
    have step : observeAll (c :: t) m = observeAll t (addContact m c.email c.name c.source) := rfl
    rw [step, ih, countOf_addContact, List.countP_cons]
    by_cases hc : c.email = e
    · simp [hc]
      omega
    · simp [hc]

theorem isSome_observeAll (cs : List Candidate) (m : ContactMap) (e : String) :
    (lookupContact (observeAll cs m) e).isSome =
      ((lookupContact m e).isSome || cs.any (fun c => c.email == e)) := by
  induction cs generalizing m with
  | nil => simp [observeAll]
  | cons c t ih =>
    have step : observeAll (c :: t) m = observeAll t (addContact m c.email c.name c.source) := rfl
    rw [step, ih, isSome_lookup_addContact]
    simp only [List.any_cons]
    cases c.email == e <;> cases (lookupContact m e).isSome <;> simp

theorem lookup_observe_run (obs : List (String × Source)) {m : ContactMap} {e : String}
    {c : Contact} (h : lookupContact m e = some c) :
    lookupContact (obs.foldl (fun r p => addContact r e p.1 p.2) m) e =
      some ⟨c.email, if c.name = "" then firstNonEmpty (obs.map Prod.fst) else c.name,
        c.source, c.count + obs.length⟩ := by
  induction obs generalizing m c with
  | nil =>
    obtain ⟨ce, cn, csrc, cct⟩ := c
    simp only [List.foldl_nil, List.map_nil, List.length_nil, Nat.add_zero, h]
    by_cases hn : cn = "" <;> simp_all [firstNonEmpty]
  | cons p t ih =>
    have h2 := lookup_addContact_some p.1 p.2 h
    have h3 := ih h2
    rw [List.foldl_cons]
    rw [h3]
    simp only [List.map_cons, List.length_cons]
    by_cases hn : c.name = ""
    · by_cases hp : p.1 = ""
      · simp [hn, hp, firstNonEmpty]
        omega
      · simp [hn, hp, firstNonEmpty]
        omega
    · simp [hn, firstNonEmpty]
      omega

/-- C1: `addContact` postcondition.  With no entry for the email a new entry
`{email, name, roleTag = role, count = 1}` is created (appended); otherwise
the entry's count increases by exactly one, its name is replaced by the
candidate's name exactly when the stored name is empty and the candidate's
name is non-empty, and its email and role are unchanged; entries under other
keys are untouched.  Consequently, after any non-empty sequence of
observations of one email the count equals the number of observations, the
name is the first non-empty observed name (empty if none), and the role is
that of the first observation. -/
theorem aggregator_observe_spec (m : ContactMap) (e n : String) (s : Source) :
    (lookupContact m e = none → addContact m e n s = m ++ [⟨e, n, s, 1⟩]) ∧
    (∀ c, lookupContact m e = some c →
      lookupContact (addContact m e n s) e =
        some ⟨c.email, if n ≠ "" ∧ c.name = "" then n else c.name, c.source, c.count + 1⟩) ∧
    (∀ e', e' ≠ e → lookupContact (addContact m e n s) e' = lookupContact m e') ∧
    (∀ obs : List (String × Source),
      lookupContact (obs.foldl (fun r p => addContact r e p.1 p.2) (addContact [] e n s)) e =
        some ⟨e, firstNonEmpty (n :: obs.map Prod.fst), s, obs.length + 1⟩) := by
  refine ⟨fun h => addContact_of_lookup_none n s h,
    fun c h => lookup_addContact_some n s h,
    fun e' h => lookup_addContact_ne n s h, fun obs => ?_⟩
  have hbase : lookupContact (addContact [] e n s) e = some ⟨e, n, s, 1⟩ := by
    simp [addContact, lookupContact]
  rw [lookup_observe_run obs hbase]
  by_cases hn : n = "" <;> simp [hn, firstNonEmpty, Nat.add_comm]

/-- C1 witness: the three postconditions and the fold consequence at concrete
inputs (the fold instance is the §8 example, names `["", "Jane Doe", "J. D."]`
after an initial empty-named observation). -/
theorem aggregator_observe_spec_witness :
    addContact [] "a@b.c" "Ann" Source.to = [⟨"a@b.c", "Ann", Source.to, 1⟩] ∧
    lookupContact (addContact [⟨"a@b.c", "", Source.to, 1⟩] "a@b.c" "Bob" Source.cc) "a@b.c" =
      some ⟨"a@b.c", "Bob", Source.to, 2⟩ ∧
    lookupContact
      ([("Jane Doe", Source.bcc), ("J. D.", Source.from_)].foldl
        (fun r p => addContact r "jane@example.com" p.1 p.2)
        (addContact [] "jane@example.com" "" Source.to)) "jane@example.com" =
      some ⟨"jane@example.com", "Jane Doe", Source.to, 3⟩ := by
  refine ⟨?_, ?_, ?_⟩
  · have h := (aggregator_observe_spec [] "a@b.c" "Ann" Source.to).1 (by decide)
    simpa using h
  · have h := (aggregator_observe_spec [⟨"a@b.c", "", Source.to, 1⟩] "a@b.c" "Bob"
      Source.cc).2.1 ⟨"a@b.c", "", Source.to, 1⟩ (by decide)
    simpa using h
  · have h := (aggregator_observe_spec [] "jane@example.com" "" Source.to).2.2.2
      [("Jane Doe", Source.bcc), ("J. D.", Source.from_)]
    simpa using h

/-- C2: folding any permutation of a candidate list into an empty registry
yields the same email keys with the same counts; under a common key the two
results can differ at most in the name and role fields. -/
theorem observe_order_independent (cs cs' : List Candidate) (hp : cs.Perm cs') (e : String) :
    (lookupContact (observeAll cs []) e).isSome =
      (lookupContact (observeAll cs' []) e).isSome ∧
    countOf (observeAll cs []) e = countOf (observeAll cs' []) e ∧
    (∀ c c', lookupContact (observeAll cs []) e = some c →
      lookupContact (observeAll cs' []) e = some c' →
      c.email = c'.email ∧ c.count = c'.count) := by
  have hcount : countOf (observeAll cs []) e = countOf (observeAll cs' []) e := by
    rw [countOf_observeAll, countOf_observeAll, hp.countP_eq]
  refine ⟨?_, hcount, ?_⟩
  · rw [isSome_observeAll, isSome_observeAll]
    have hany : cs.any (fun c => c.email == e) = cs'.any (fun c => c.email == e) := by
      cases h1 : cs.any (fun c => c.email == e) <;>
        cases h2 : cs'.any (fun c => c.email == e) <;> try rfl
      · rw [List.any_eq_true] at h2
        obtain ⟨x, hx, hxe⟩ := h2
        have : cs.any (fun c => c.email == e) = true :=
          List.any_eq_true.mpr ⟨x, hp.mem_iff.mpr hx, hxe⟩
        rw [h1] at this
        exact absurd this (by simp)
      · rw [List.any_eq_true] at h1
        obtain ⟨x, hx, hxe⟩ := h1
        have : cs'.any (fun c => c.email == e) = true :=
          List.any_eq_true.mpr ⟨x, hp.mem_iff.mp hx, hxe⟩
        rw [h2] at this
        exact absurd this (by simp)
    rw [hany]
  · intro c c' h1 h2
    refine ⟨(email_of_lookup h1).trans (email_of_lookup h2).symm, ?_⟩
    have e1 : countOf (observeAll cs []) e = c.count := by simp [countOf, h1]
    have e2 : countOf (observeAll cs' []) e = c'.count := by simp [countOf, h2]
    omega

/-- C2 witness: counts agree for a concrete list and a concrete permutation
of it. -/
theorem observe_order_independent_witness :
    countOf (observeAll [⟨"a@b.c", "A", Source.to⟩, ⟨"x@y.z", "X", Source.cc⟩,
        ⟨"a@b.c", "B", Source.from_⟩] []) "a@b.c" =
      countOf (observeAll [⟨"a@b.c", "B", Source.from_⟩, ⟨"a@b.c", "A", Source.to⟩,
        ⟨"x@y.z", "X", Source.cc⟩] []) "a@b.c" :=
  (observe_order_independent _ _ (by decide) "a@b.c").2.1

/-! ### Stable sort lemmas -/

theorem mem_insertByCount {c d : Contact} {l : List Contact} :
    d ∈ insertByCount c l ↔ d = c ∨ d ∈ l := by
  induction l with
  | nil => simp [insertByCount]
  | cons x t ih =>
    by_cases hx : x.count ≤ c.count
    · simp [insertByCount, hx]
    · simp [insertByCount, hx, ih]
      tauto

theorem pairwise_insertByCount {c : Contact} {l : List Contact}
    (h : l.Pairwise (fun a b => b.count ≤ a.count)) :
    (insertByCount c l).Pairwise (fun a b => b.count ≤ a.count) := by
  induction l with
  | nil => simp [insertByCount]
  | cons x t ih =>
    rw [List.pairwise_cons] at h
    by_cases hx : x.count ≤ c.count
    · rw [insertByCount, if_pos hx]
      refine List.Pairwise.cons ?_ (List.Pairwise.cons h.1 h.2)
      intro b hb
      rcases List.mem_cons.mp hb with hb | hb
      · exact hb ▸ hx
      · exact Nat.le_trans (h.1 b hb) hx
    · rw [insertByCount, if_neg hx]
      refine List.Pairwise.cons ?_ (ih h.2)
      intro b hb
      rcases mem_insertByCount.mp hb with hb | hb
      · exact hb ▸ Nat.le_of_lt (Nat.lt_of_not_le hx)
      · exact h.1 b hb

theorem pairwise_sortContacts (l : List Contact) :
    (sortContacts l).Pairwise (fun a b => b.count ≤ a.count) := by
  induction l with
  | nil => simp [sortContacts]
  | cons x t ih => exact pairwise_insertByCount ih

theorem filter_insertByCount (c : Contact) (l : List Contact) (k : Nat) :
    (insertByCount c l).filter (fun d => d.count == k) =
      (c :: l).filter (fun d => d.count == k) := by
  induction l with
  | nil => rfl
  | cons x t ih =>
    by_cases hx : x.count ≤ c.count
    · rw [insertByCount, if_pos hx]
    · rw [insertByCount, if_neg hx]
      by_cases hck : c.count = k
      · have hxk : (x.count == k) = false := by
          simp only [beq_eq_false_iff_ne, ne_eq]
          omega
        rw [List.filter_cons, List.filter_cons, hxk, List.filter_cons, hxk]
        simp only [Bool.false_eq_true, if_false]
        rw [ih, List.filter_cons]
      · have hck' : (c.count == k) = false := by simpa using hck
        rw [List.filter_cons, List.filter_cons, ih, List.filter_cons, List.filter_cons, hck']
        simp only [Bool.false_eq_true, if_false]

theorem filter_sortContacts (l : List Contact) (k : Nat) :
    (sortContacts l).filter (fun d => d.count == k) = l.filter (fun d => d.count == k) := by
  induction l with
  | nil => rfl
  | cons x t ih =>
    have : sortContacts (x :: t) = insertByCount x (sortContacts t) := rfl
    rw [this, filter_insertByCount, List.filter_cons, List.filter_cons, ih]

/-- C5: the all-contacts CSV, the frequent CSV and the vCard text are all
generated from the one sorted list `sortContacts contacts`; that list is
sorted by non-increasing count and is stable (contacts of any fixed count keep
their registry order); and the CSV text begins with the header row. -/
theorem output_ordering_spec (contacts : ContactMap) :
    (buildResult contacts).csvData = generateCSV (sortContacts contacts) ∧
    (buildResult contacts).csvFrequentData =
      generateCSV ((sortContacts contacts).filter (fun c => decide (3 ≤ c.count))) ∧
    (buildResult contacts).vcardData = generateVCard (sortContacts contacts) ∧
    generateCSV (sortContacts contacts) =
      joinWith "\n" ("Email,Name,Source,Message Count" ::
        (sortContacts contacts).map csvRow) ∧
    generateVCard (sortContacts contacts) =
      joinWith "\r\n" ((sortContacts contacts).map vcardRecord) ∧
    List.Pairwise (fun a b => b.count ≤ a.count) (sortContacts contacts) ∧
    (∀ k, (sortContacts contacts).filter (fun c => c.count == k) =
      contacts.filter (fun c => c.count == k)) ∧
    (∃ rest, (buildResult contacts).csvData = "Email,Name,Source,Message Count" ++ rest) := by
  refine ⟨rfl, rfl, rfl, rfl, rfl, pairwise_sortContacts contacts,
    fun k => filter_sortContacts contacts k, ?_⟩
  show ∃ rest, generateCSV (sortContacts contacts) = _ ++ rest
  rw [generateCSV]
  cases (sortContacts contacts).map csvRow with
  | nil => exact ⟨"", by simp [joinWith]⟩
  | cons r t =>
    refine ⟨"\n" ++ joinWith "\n" (r :: t), ?_⟩
    show "Email,Name,Source,Message Count" ++ "\n" ++ joinWith "\n" (r :: t) = _
    rw [String.append_assoc]

/-- C8: the frequent CSV is the same header followed by exactly the rows of
the sorted list whose count is at least 3, formatted by the same `csvRow`;
those rows form a sublist (same relative order) of the all-contacts rows, and
the `frequentContacts` counter is their number. -/
theorem frequent_subset_spec (contacts : ContactMap) :
    (buildResult contacts).csvFrequentData =
      joinWith "\n" ("Email,Name,Source,Message Count" ::
        ((sortContacts contacts).filter (fun c => decide (3 ≤ c.count))).map csvRow) ∧
    (((sortContacts contacts).filter (fun c => decide (3 ≤ c.count))).map csvRow).Sublist
      ((sortContacts contacts).map csvRow) ∧
    (buildResult contacts).frequentContacts =
      ((sortContacts contacts).filter (fun c => decide (3 ≤ c.count))).length :=
  ⟨rfl, (List.filter_sublist _).map csvRow, rfl⟩

/-! ### Name splitting lemmas -/

theorem splitOnSpace_ne_nil (l : List Char) : splitOnSpace l ≠ [] := by
  cases l with
  | nil => simp [splitOnSpace]
  | cons c t =>
    by_cases hc : c = ' '
    · simp [splitOnSpace, hc]
    · rw [splitOnSpace, if_neg hc]
      cases h : splitOnSpace t <;> simp

theorem intercalate_splitOnSpace (l : List Char) :
    intercalateChars [' '] (splitOnSpace l) = l := by
  induction l with
  | nil => rfl
  | cons c t ih =>
    by_cases hc : c = ' '
    · rw [splitOnSpace, if_pos hc]
      obtain ⟨h0, r0, hr⟩ := List.exists_cons_of_ne_nil (splitOnSpace_ne_nil t)
      rw [hr]
      rw [hr] at ih
      rw [intercalateChars]
      simp only [List.nil_append]
      rw [ih, hc]
      rfl
    · rw [splitOnSpace, if_neg hc]
      obtain ⟨h0, r0, hr⟩ := List.exists_cons_of_ne_nil (splitOnSpace_ne_nil t)
      rw [hr]
      rw [hr] at ih
      cases r0 with
      | nil =>
        rw [intercalateChars] at ih ⊢
        rw [ih]
      | cons y t2 =>
        rw [intercalateChars] at ih ⊢
        rw [← ih]
        simp

/-- C6 counterexample: the claim says names are split on whitespace, so the
tab-separated name `"Jane\tDoe"` would have to yield `N:Doe;Jane;;;`.  The
formatter splits on the space character only, keeps the tab inside a single
part, and emits `N:;Jane\tDoe;;;` instead. -/
theorem vcard_name_split_counterexample :
    generateVCard [⟨"jane@example.com", "Jane\tDoe", Source.from_, 1⟩] =
      "BEGIN:VCARD\r\nVERSION:3.0\r\nFN:Jane\tDoe\r\nN:;Jane\tDoe;;;\r\nEMAIL;TYPE=INTERNET:jane@example.com\r\nNOTE:Source: from, Messages: 1\r\nEND:VCARD" ∧
    generateVCard [⟨"jane@example.com", "Jane\tDoe", Source.from_, 1⟩] ≠
      "BEGIN:VCARD\r\nVERSION:3.0\r\nFN:Jane\tDoe\r\nN:Doe;Jane;;;\r\nEMAIL;TYPE=INTERNET:jane@example.com\r\nNOTE:Source: from, Messages: 1\r\nEND:VCARD" := by
  constructor
  · decide
  · decide

/-- C6 amended: the vCard formatter splits a non-empty name on the space
character (U+0020); with two or more parts the last part becomes the family
name and the preceding parts rejoined with single spaces become the given
name (`N:<last>;<rest>;;;`); a name without a space becomes entirely the
given name with an empty family name; an empty name yields `N:;;;;` and an
`FN` line equal to the email. -/
theorem vcard_name_split_amended (c : Contact) :
    generateVCard [c] = joinWith "\r\n"
      [ "BEGIN:VCARD",
        "VERSION:3.0",
        (if c.name = "" then "FN:" ++ c.email else "FN:" ++ c.name),
        (if c.name = "" then "N:;;;;"
         else "N:" ++ String.mk (specSplitName c.name.data).1 ++ ";" ++
           String.mk (specSplitName c.name.data).2 ++ ";;;"),
        "EMAIL;TYPE=INTERNET:" ++ c.email,
        "NOTE:Source: " ++ sourceStr c.source ++ ", Messages: " ++ toString c.count,
        "END:VCARD" ] := by
  have hgen : generateVCard [c] = vcardRecord c := rfl
  rw [hgen, vcardRecord, specSplitName]
  by_cases hname : c.name = ""
  · simp [hname]
  · simp only [hname, if_neg, ne_eq, not_false_eq_true, if_true, if_false]
    obtain ⟨h0, r0, hr⟩ := List.exists_cons_of_ne_nil (splitOnSpace_ne_nil c.name.data)
    by_cases hlen : 2 ≤ (splitOnSpace c.name.data).length
    · have hgt : (splitOnSpace c.name.data).length > 1 := hlen
      simp only [hgt, if_pos, hlen]
    · have hgt : ¬((splitOnSpace c.name.data).length > 1) := by omega
      simp only [hgt, if_neg, hlen, if_false, not_false_eq_true]
      have hlen1 : (splitOnSpace c.name.data).length = 1 := by
        rw [hr]
        rw [hr] at hlen
        simp only [List.length_cons] at hlen ⊢
        omega
      have hsingle : splitOnSpace c.name.data = [h0] := by
        rw [hr] at hlen1 ⊢
        simp only [List.length_cons, Nat.add_left_eq_self, List.length_eq_zero] at hlen1
        rw [hlen1]
      have hjoin : intercalateChars [' '] (splitOnSpace c.name.data) = c.name.data :=
        intercalate_splitOnSpace c.name.data
      rw [hsingle] at hjoin
      rw [hsingle]
      rw [intercalateChars] at hjoin ⊢
      rw [hjoin]

/-! ### Preview extraction lemmas -/

theorem extractLoop_eq_filterMap (fuel : Nat) (t : List Char) :
    extractLoop fuel t =
      (collectMatches fuel t).filterMap (fun m => processOne m.1 m.2.1 m.2.2) := by
  induction fuel generalizing t with
  | zero => rfl
  | succ fuel ih =>
    rw [extractLoop, collectMatches]
    cases h : findMatch t with
    | none => rfl
    | some r =>
      obtain ⟨kw, nm, em, rest⟩ := r
      rw [List.filterMap_cons]
      cases hp : processOne kw nm em with
      | none => simpa [hp] using ih rest
      | some cand => simpa [hp] using ih rest

/-- C3: the preview extractor emits exactly one candidate per accepted match
of the scan that collects all non-overlapping, case-insensitive occurrences of
`keyword ':' name '<'address'>'` anywhere in the entity-decoded text, where a
match is accepted, role-mapped, lower-cased and trimmed by `processOne`
(matches whose bracketed text lacks `@` yield no candidate); on the spec's
example text it yields exactly the two candidates with roles from and to. -/
theorem preview_extraction_spec :
    (∀ s : String, extractEmailsFromPreview s =
      (collectMatches ((decodeXmlEntitiesL s.data).length + 1)
        (decodeXmlEntitiesL s.data)).filterMap (fun m => processOne m.1 m.2.1 m.2.2)) ∧
    extractEmailsFromPreview
        "From: Preview Name <preview@example.com> To: Dest <dest@example.com>" =
      [⟨"preview@example.com", "Preview Name", .from_⟩, ⟨"dest@example.com", "Dest", .to⟩] := by
  constructor
  · intro s
    exact extractLoop_eq_filterMap _ _
  · decide

/-- C4: a CSV field is rendered in quoted form (wrapped in double quotes with
every internal double quote doubled) if and only if it contains a comma, a
double quote or a newline; the empty string renders as the empty field; and
the name `Doe, "Jr"` serializes to `"Doe, ""Jr"""`. -/
theorem csv_field_quoting_spec (s : String) :
    (escapeCSV s = "\"" ++ String.mk (replaceQuotes s.data) ++ "\"" ↔
      (jsIncludes s ',' || jsIncludes s '"' || jsIncludes s '\n') = true) ∧
    escapeCSV "" = "" ∧
    escapeCSV "Doe, \"Jr\"" = "\"Doe, \"\"Jr\"\"\"" := by
  refine ⟨⟨fun h => ?_, fun h => ?_⟩, by decide, by decide⟩
  · by_contra hq
    have hq' : (jsIncludes s ',' || jsIncludes s '"' || jsIncludes s '\n') = false := by
      cases hv : (jsIncludes s ',' || jsIncludes s '"' || jsIncludes s '\n') with
      | true => exact absurd hv hq
      | false => rfl
    have hplain : escapeCSV s = s := by
      rw [escapeCSV]
      by_cases hs : s = ""
      · simp [hs]
      · rw [if_neg hs, hq']
        simp
    rw [hplain] at h
    have hmem : '"' ∈ s.data := by
      rw [h]
      simp
    have hnotmem : ¬('"' ∈ s.data) := by
      have : jsIncludes s '"' = false := by
        cases hv : jsIncludes s '"' with
        | true => simp [hv] at hq'
        | false => rfl
      simpa [jsIncludes] using this
    exact hnotmem hmem
  · have hs : s ≠ "" := by
      intro hs
      rw [hs] at h
      simp [jsIncludes] at h
    rw [escapeCSV, if_neg hs, h]
    simp

/-- C7: when no non-directory archive member has a name ending in `.xml`, the
run terminates with the single empty-archive error and produces no outputs
(the error branch carries no result payload). -/
theorem empty_archive_terminal (textOf : Decoded → String) (files : List ZipEntry)
    (flag : Bool)
    (h : ∀ f ∈ files, ¬(jsEndsWith f.name ".xml" = true ∧ f.isDir = false)) :
    processArchive textOf files flag = .error "No XML files found in .olm archive" := by
  rw [processArchive]
  have hfilter : files.filter (fun f => jsEndsWith f.name ".xml" && !f.isDir) = [] := by
    rw [List.filter_eq_nil_iff]
    intro f hf
    have hff := h f hf
    simp only [Bool.and_eq_true, Bool.not_eq_true']
    intro hc
    exact hff ⟨hc.1, hc.2⟩
  rw [hfilter]
  rfl

/-- C7 witness: a concrete archive with only a non-XML file and an
`.xml`-named directory fails with the empty-archive error. -/
theorem empty_archive_terminal_witness :
    processArchive (fun _ => "") [⟨"a.txt", false, [60]⟩, ⟨"b.xml", true, []⟩] true =
      .error "No XML files found in .olm archive" :=
  empty_archive_terminal (fun _ => "") _ true (by decide)

/-- Value of the worker's big-endian BOM expression `(bytes[0] << 8) | bytes[1]`
for byte-range inputs. -/
theorem bom_arith (b0 b1 : Nat) (h1 : b1 < 256) : (b0 <<< 8) ||| b1 = b0 * 256 + b1 := by
  have h256 : (256 : Nat) = 2 ^ 8 := by norm_num
  rw [Nat.shiftLeft_eq, ← h256, Nat.mul_comm b0 256]
  rw [h256] at h1 ⊢
  exact (Nat.mul_add_lt_is_or h1 b0).symm

/-- C9: for inputs of length at least two whose first two bytes read as a
big-endian 16-bit value equal `0xFFFE` (resp. `0xFEFF`), the remaining bytes
are decoded as UTF-16LE (resp. UTF-16BE); otherwise, including inputs shorter
than two bytes, the whole input is decoded as UTF-8.  The decoder is a total
function: no input is rejected. -/
theorem byte_decoder_bom_spec (b0 b1 : Nat) (rest : List Nat) (h0 : b0 < 256)
    (h1 : b1 < 256) :
    (b0 * 256 + b1 = 0xfffe → decodeXmlBytes (b0 :: b1 :: rest) = .utf16le rest) ∧
    (b0 * 256 + b1 = 0xfeff → decodeXmlBytes (b0 :: b1 :: rest) = .utf16be rest) ∧
    (b0 * 256 + b1 ≠ 0xfffe → b0 * 256 + b1 ≠ 0xfeff →
      decodeXmlBytes (b0 :: b1 :: rest) = .utf8 (b0 :: b1 :: rest)) ∧
    decodeXmlBytes [] = .utf8 [] ∧
    decodeXmlBytes [b0] = .utf8 [b0] := by
  have hbom : (b0 <<< 8) ||| b1 = b0 * 256 + b1 := bom_arith b0 b1 h1
  refine ⟨fun h => ?_, fun h => ?_, fun hne1 hne2 => ?_, rfl, rfl⟩
  · rw [decodeXmlBytes]
    simp [hbom, h]
  · rw [decodeXmlBytes]
    simp [hbom, h]
  · rw [decodeXmlBytes]
    simp only [hbom]
    rw [if_neg hne1, if_neg hne2]

/-- C9 witness: the three dispatch branches at concrete byte sequences. -/
theorem byte_decoder_bom_spec_witness :
    decodeXmlBytes [0xff, 0xfe, 7] = .utf16le [7] ∧
    decodeXmlBytes [0xfe, 0xff] = .utf16be [] ∧
    decodeXmlBytes [1, 2, 3] = .utf8 [1, 2, 3] :=
  ⟨(byte_decoder_bom_spec 0xff 0xfe [7] (by decide) (by decide)).1 (by decide),
   (byte_decoder_bom_spec 0xfe 0xff [] (by decide) (by decide)).2.1 (by decide),
   (byte_decoder_bom_spec 1 2 [3] (by decide) (by decide)).2.2.1 (by decide) (by decide)⟩

/-- C10: on the preview path entities are decoded twice — once after tag
stripping when the `OPFMessageCopyPreview` body is extracted, and again inside
`extractEmailsFromPreview`.  The double-encoded body
`To: X &amp;lt;a@b.com&amp;gt;` therefore still yields the candidate
`(a@b.com, "X", to)` with the preview flag enabled, although a single entity
decoding of that body contains no literal angle brackets and the header
pattern finds no match in it (and without the flag nothing is extracted). -/
theorem preview_double_decode :
    extractContactsFromXmlText
        "<OPFMessageCopyPreview>To: X &amp;lt;a@b.com&amp;gt;</OPFMessageCopyPreview>"
        [] true = [⟨"a@b.com", "X", .to, 1⟩] ∧
    decodeXmlEntitiesL "To: X &amp;lt;a@b.com&amp;gt;".data =
      "To: X &lt;a@b.com&gt;".data ∧
    '<' ∉ decodeXmlEntitiesL "To: X &amp;lt;a@b.com&amp;gt;".data ∧
    collectMatches ((decodeXmlEntitiesL "To: X &amp;lt;a@b.com&amp;gt;".data).length + 1)
      (decodeXmlEntitiesL "To: X &amp;lt;a@b.com&amp;gt;".data) = [] ∧
    extractContactsFromXmlText
        "<OPFMessageCopyPreview>To: X &amp;lt;a@b.com&amp;gt;</OPFMessageCopyPreview>"
        [] false = [] := by
  refine ⟨by decide, by decide, by decide, by decide, by decide⟩

end OlmExport
